import Mathlib

/-!
Verification of the Memory-Allocator repository.

This file shallowly embeds the C++ sources (MemoryAllocator.cpp,
MemoryProfiler.cpp, MemoryLeakDetector.cpp, AdaptiveMemoryAllocator.cpp)
into Lean and settles the frozen claims about them.

Modelling conventions:
* `size_t` is modelled as `Nat`; where unsigned wrap-around can actually occur
  (the `usedBlocks--` decrement, the `size - commonSizes[0]` subtraction) the
  wrap modulo 2^64 is made explicit.
* `double` is modelled as `ℚ`; the decimal literals 0.8, 0.95, 1.1, ... are
  modelled by the exact rationals they denote in the source text.
* C++ exceptions are modelled with `Except`: `AllocationFailedException` with
  its two messages and `InvalidAddressException` become the three
  constructors of `AllocatorError`.
* `std::list<MemoryBlock>` becomes `List MemoryBlock`; iterators become list
  indices.  The `addressMap` (`unordered_map<size_t, iterator>`) is modelled
  implicitly: its key set equals the set of block base addresses in every
  reachable state (the constructor inserts address 0 of the single initial
  block, `splitBlock` inserts the address of the inserted block, and
  `mergeFreeBlocks` erases exactly the addresses of the erased blocks), so
  `addressMap.find(address)` is modelled as a search for the block whose
  `address` field matches.
-/

/-- enum class AllocationStrategy. -/
inductive AllocationStrategy where
  | FIRST_FIT
  | BEST_FIT
  | WORST_FIT
deriving DecidableEq, Repr

/-- struct MemoryBlock { size_t address; size_t size; bool isFree; }. -/
structure MemoryBlock where
  address : Nat
  size : Nat
  isFree : Bool
deriving DecidableEq, Repr

/-- The exceptions thrown by the allocator:
`zeroSize` is AllocationFailedException with message "Cannot allocate zero bytes",
`noFit` is AllocationFailedException with message "No suitable memory block found",
`invalidAddress` is InvalidAddressException with message
"Invalid address for deallocation". -/
inductive AllocatorError where
  | zeroSize
  | noFit
  | invalidAddress
deriving DecidableEq, Repr

/-- class MemoryAllocator: the block list, the configured total size, and the
active placement strategy (the addressMap is implicit, see the file header). -/
structure MemoryAllocator where
  memoryBlocks : List MemoryBlock
  totalMemorySize : Nat
  strategy : AllocationStrategy
deriving DecidableEq, Repr

/-- MemoryAllocator constructor: one large free block at address 0. -/
def mkMemoryAllocator (size : Nat) (allocationStrategy : AllocationStrategy) :
    MemoryAllocator :=
  { memoryBlocks := [⟨0, size, true⟩]
    totalMemorySize := size
    strategy := allocationStrategy }

/-- FIRST_FIT scan of findSuitableBlock: `std::find_if` over the block list
for the first free block with `size ≥` the request.  `i` is the index of the
head of the remaining list; the result is the iterator, i.e. the index of the
found block together with the block itself. -/
def findFirstFitGo (size : Nat) : List MemoryBlock → Nat → Option (Nat × MemoryBlock)
  | [], _ => none
  | b :: rest, i =>
    if b.isFree && size ≤ b.size then some (i, b)
    else findFirstFitGo size rest (i + 1)

/-- BEST_FIT scan of findSuitableBlock.  `bestFit` carries the running best
candidate (C++ `bestFit`, initially `memoryBlocks.end()`, modelled `none`) and
`smallestDifference` the running smallest difference (C++ starts at
`SIZE_MAX`; `none` models "no candidate accepted yet", which coincides with
the source because every real difference is `< SIZE_MAX`). -/
def findBestFitGo (size : Nat) :
    List MemoryBlock → Nat → Option (Nat × MemoryBlock) → Option Nat →
    Option (Nat × MemoryBlock)
  | [], _, bestFit, _ => bestFit
  | b :: rest, i, bestFit, smallestDifference =>
    if b.isFree && size ≤ b.size &&
        (match smallestDifference with
         | none => true
         | some d => b.size - size < d) then
      findBestFitGo size rest (i + 1) (some (i, b)) (some (b.size - size))
    else
      findBestFitGo size rest (i + 1) bestFit smallestDifference

/-- WORST_FIT scan of findSuitableBlock.  `worstFit` carries the running
candidate (initially `memoryBlocks.end()`) and `largestDifference` starts at
`0`; a block is accepted only when its difference is strictly larger
(`difference > largestDifference`), exactly as in the source — so a block
whose difference is 0 (an exact fit) is never accepted. -/
def findWorstFitGo (size : Nat) :
    List MemoryBlock → Nat → Option (Nat × MemoryBlock) → Nat →
    Option (Nat × MemoryBlock)
  | [], _, worstFit, _ => worstFit
  | b :: rest, i, worstFit, largestDifference =>
    if b.isFree && size ≤ b.size && largestDifference < b.size - size then
      findWorstFitGo size rest (i + 1) (some (i, b)) (b.size - size)
    else
      findWorstFitGo size rest (i + 1) worstFit largestDifference

/-- MemoryAllocator::findSuitableBlock. -/
def MemoryAllocator.findSuitableBlock (a : MemoryAllocator) (size : Nat) :
    Option (Nat × MemoryBlock) :=
  match a.strategy with
  | .FIRST_FIT => findFirstFitGo size a.memoryBlocks 0
  | .BEST_FIT => findBestFitGo size a.memoryBlocks 0 none none
  | .WORST_FIT => findWorstFitGo size a.memoryBlocks 0 none 0

/-- MemoryAllocator::splitBlock at list index `i`: when the remainder
`block->size - size` is positive, shrink the block to `size` and insert the
free remainder right after it. -/
def splitBlock : List MemoryBlock → Nat → Nat → List MemoryBlock
  | [], _, _ => []
  | b :: rest, 0, size =>
    if 0 < b.size - size then
      { b with size := size } :: ⟨b.address + size, b.size - size, true⟩ :: rest
    else
      b :: rest
  | b :: rest, i + 1, size => b :: splitBlock rest i size

/-- The `blockIt->isFree = false` step of allocate, at list index `i`. -/
def markAllocated : List MemoryBlock → Nat → List MemoryBlock
  | [], _ => []
  | b :: rest, 0 => { b with isFree := false } :: rest
  | b :: rest, i + 1 => b :: markAllocated rest i

/-- The `it->second->isFree = true` step of deallocate, at list index `i`. -/
def setFreeTrue : List MemoryBlock → Nat → List MemoryBlock
  | [], _ => []
  | b :: rest, 0 => { b with isFree := true } :: rest
  | b :: rest, i + 1 => b :: setFreeTrue rest i

/-- The loop of MemoryAllocator::mergeFreeBlocks, with `b` the block under
the iterator `it` and the list argument what follows it: while the successor
is also free it is absorbed into `b` (`it` stays in place after a merge, so
whole runs of free blocks collapse into one); otherwise the iterator
advances. -/
def mergeGo (b : MemoryBlock) : List MemoryBlock → List MemoryBlock
  | [] => [b]
  | c :: rest =>
    if b.isFree && c.isFree then
      mergeGo { b with size := b.size + c.size } rest
    else
      b :: mergeGo c rest

/-- MemoryAllocator::mergeFreeBlocks. -/
def mergeFreeBlocks : List MemoryBlock → List MemoryBlock
  | [] => []
  | b :: rest => mergeGo b rest

/-- MemoryAllocator::allocate. -/
def MemoryAllocator.allocate (a : MemoryAllocator) (size : Nat) :
    Except AllocatorError (Nat × MemoryAllocator) :=
  if size = 0 then .error .zeroSize
  else
    match a.findSuitableBlock size with
    | none => .error .noFit
    | some (i, b) =>
      let blocks :=
        if size < b.size then splitBlock a.memoryBlocks i size else a.memoryBlocks
      .ok (b.address, { a with memoryBlocks := markAllocated blocks i })

/-- MemoryAllocator::deallocate.  `addressMap.find(address)` is modelled as a
search for the block with that base address (see the file header); on a miss
the InvalidAddressException is thrown, otherwise the block is flagged free and
the list is re-coalesced. -/
def MemoryAllocator.deallocate (a : MemoryAllocator) (address : Nat) :
    Except AllocatorError MemoryAllocator :=
  match a.memoryBlocks.findIdx? (fun b => b.address == address) with
  | none => .error .invalidAddress
  | some i =>
    .ok { a with memoryBlocks := mergeFreeBlocks (setFreeTrue a.memoryBlocks i) }

/-- MemoryAllocator::setAllocationStrategy. -/
def MemoryAllocator.setAllocationStrategy (a : MemoryAllocator)
    (newStrategy : AllocationStrategy) : MemoryAllocator :=
  { a with strategy := newStrategy }

/-- The free-size contribution of the block list
(MemoryAllocator::getTotalFreeMemory's loop). -/
def totalFreeMemory : List MemoryBlock → Nat
  | [] => 0
  | b :: rest => (if b.isFree then b.size else 0) + totalFreeMemory rest

/-- MemoryAllocator::getTotalFreeMemory. -/
def MemoryAllocator.getTotalFreeMemory (a : MemoryAllocator) : Nat :=
  totalFreeMemory a.memoryBlocks

/-- The loop of MemoryAllocator::getLargestFreeBlock with its accumulator
(`largest`, initially 0; updated when a free block is strictly larger). -/
def largestFreeGo : List MemoryBlock → Nat → Nat
  | [], largest => largest
  | b :: rest, largest =>
    largestFreeGo rest (if b.isFree && largest < b.size then b.size else largest)

/-- MemoryAllocator::getLargestFreeBlock. -/
def MemoryAllocator.getLargestFreeBlock (a : MemoryAllocator) : Nat :=
  largestFreeGo a.memoryBlocks 0

/-- MemoryAllocator::getFragmentationRatio, with `double` modelled as `ℚ`:
0 when there is no free memory, otherwise 1 − largest/total. -/
def MemoryAllocator.getFragmentationRatio (a : MemoryAllocator) : ℚ :=
  let totalFreeMem := a.getTotalFreeMemory
  let largestFreeBlock := a.getLargestFreeBlock
  if totalFreeMem = 0 then 0
  else 1 - (largestFreeBlock : ℚ) / (totalFreeMem : ℚ)

/-- Two neighbouring blocks are acceptable when they are not both free. -/
def FreeSep (x y : MemoryBlock) : Prop := x.isFree = false ∨ y.isFree = false

instance : DecidableRel FreeSep := fun x y =>
  inferInstanceAs (Decidable (_ ∨ _))

/-- The coalescing invariant: no two adjacent blocks of the list are both
free. -/
def noAdjacentFree (l : List MemoryBlock) : Prop := l.Chain' FreeSep

/-- Executable form of the coalescing invariant. -/
def noAdjacentFreeB : List MemoryBlock → Bool
  | [] => true
  | [_] => true
  | b :: c :: rest => (!(b.isFree && c.isFree)) && noAdjacentFreeB (c :: rest)

theorem noAdjacentFreeB_iff :
    ∀ l : List MemoryBlock, noAdjacentFreeB l = true ↔ noAdjacentFree l
  | [] => by simp [noAdjacentFreeB, noAdjacentFree]
  | [b] => by simp [noAdjacentFreeB, noAdjacentFree]
  | b :: c :: rest => by
    have ih := noAdjacentFreeB_iff (c :: rest)
    rw [noAdjacentFree] at ih
    rw [noAdjacentFree, List.chain'_cons]
    simp only [noAdjacentFreeB, Bool.and_eq_true, Bool.not_eq_true',
      Bool.and_eq_false_iff]
    constructor
    · rintro ⟨h1, h2⟩
      exact ⟨h1, ih.mp h2⟩
    · rintro ⟨h1, h2⟩
      exact ⟨h1, ih.mpr h2⟩

instance (l : List MemoryBlock) : Decidable (noAdjacentFree l) :=
  decidable_of_iff _ (noAdjacentFreeB_iff l)

/-- The blocks tile the arena contiguously starting at `next`: each block
starts where the previous one ended. -/
def blocksContiguousB : Nat → List MemoryBlock → Bool
  | _, [] => true
  | next, b :: rest => (b.address == next) && blocksContiguousB (b.address + b.size) rest

/-- Sum of all block sizes. -/
def totalSizes : List MemoryBlock → Nat
  | [] => 0
  | b :: rest => b.size + totalSizes rest

/-- The arena block invariants of the spec (§3, §8): contiguous coverage from
address 0, positive block sizes, the sizes sum to the configured total, and no
two adjacent free blocks. -/
def MemoryAllocator.WF (a : MemoryAllocator) : Prop :=
  blocksContiguousB 0 a.memoryBlocks = true ∧
  (∀ b ∈ a.memoryBlocks, 0 < b.size) ∧
  totalSizes a.memoryBlocks = a.totalMemorySize ∧
  noAdjacentFree a.memoryBlocks

instance (a : MemoryAllocator) : Decidable a.WF :=
  inferInstanceAs (Decidable (_ ∧ _ ∧ _ ∧ _))

deriving instance DecidableEq for Except

/-! ### Lemmas about mergeFreeBlocks -/

/-- mergeFreeBlocks keeps a nonempty list nonempty and preserves the head's
address and free flag (a merge only grows the head's size). -/
theorem mergeFreeBlocks_head (l : List MemoryBlock) (b : MemoryBlock) :
    ∃ c rest, mergeFreeBlocks (b :: l) = c :: rest ∧
      c.isFree = b.isFree ∧ c.address = b.address := by
  induction l generalizing b with
  | nil => exact ⟨b, [], rfl, rfl, rfl⟩
  | cons c rest ih =>
    cases h : b.isFree && c.isFree with
    | true =>
      rw [show mergeFreeBlocks (b :: c :: rest)
          = mergeFreeBlocks ({ b with size := b.size + c.size } :: rest) by
        simp [mergeFreeBlocks, mergeGo, h]]
      obtain ⟨d, ds, hd, hfree, haddr⟩ := ih { b with size := b.size + c.size }
      exact ⟨d, ds, hd, hfree, haddr⟩
    | false =>
      exact ⟨b, mergeFreeBlocks (c :: rest), by simp [mergeFreeBlocks, mergeGo, h], rfl, rfl⟩

/-- The merge loop leaves a list alone when the invariant already holds from
the iterator position on. -/
theorem mergeGo_of_chain :
    ∀ (l : List MemoryBlock) (b : MemoryBlock),
      (b :: l).Chain' FreeSep → mergeGo b l = b :: l
  | [], b, _ => rfl
  | c :: rest, b, h => by
    rcases List.chain'_cons.mp h with ⟨hbc, htail⟩
    have hnb : (b.isFree && c.isFree) = false := by
      rcases hbc with h1 | h1 <;> simp [h1]
    rw [mergeGo, if_neg (by simp [hnb])]
    rw [mergeGo_of_chain rest c htail]

/-- On a list that already satisfies the coalescing invariant,
mergeFreeBlocks is the identity. -/
theorem mergeFreeBlocks_of_chain :
    ∀ l : List MemoryBlock, l.Chain' FreeSep → mergeFreeBlocks l = l
  | [], _ => rfl
  | b :: rest, h => by
    rw [show mergeFreeBlocks (b :: rest) = mergeGo b rest from rfl]
    exact mergeGo_of_chain rest b h

/-- mergeFreeBlocks establishes the coalescing invariant, starting from any
nonempty list. -/
theorem chain_mergeFreeBlocks_cons (l : List MemoryBlock) (b : MemoryBlock) :
    (mergeFreeBlocks (b :: l)).Chain' FreeSep := by
  induction l generalizing b with
  | nil => simp [mergeFreeBlocks, mergeGo]
  | cons c rest ih =>
    cases h : b.isFree && c.isFree with
    | true =>
      rw [show mergeFreeBlocks (b :: c :: rest)
          = mergeFreeBlocks ({ b with size := b.size + c.size } :: rest) by
        simp [mergeFreeBlocks, mergeGo, h]]
      exact ih { b with size := b.size + c.size }
    | false =>
      rw [show mergeFreeBlocks (b :: c :: rest)
          = b :: mergeFreeBlocks (c :: rest) by simp [mergeFreeBlocks, mergeGo, h]]
      refine List.chain'_cons'.mpr ⟨?_, ih c⟩
      intro y hy
      obtain ⟨d, ds, hd, hfree, _⟩ := mergeFreeBlocks_head rest c
      rw [hd] at hy
      simp only [List.head?_cons, Option.mem_def, Option.some.injEq] at hy
      subst hy
      rcases Bool.and_eq_false_iff.mp h with h1 | h1
      · exact Or.inl h1
      · exact Or.inr (hfree.trans h1)

/-- mergeFreeBlocks establishes the coalescing invariant on any list. -/
theorem chain_mergeFreeBlocks (l : List MemoryBlock) :
    (mergeFreeBlocks l).Chain' FreeSep := by
  cases l with
  | nil => simp [mergeFreeBlocks, mergeGo]
  | cons b rest => exact chain_mergeFreeBlocks_cons rest b

/-! ### Soundness of the placement-policy scans -/

/-- The FIRST_FIT scan returns a free block of sufficient size, at its own
index. -/
theorem findFirstFitGo_sound (size : Nat) :
    ∀ (l : List MemoryBlock) (i0 j : Nat) (b : MemoryBlock),
      findFirstFitGo size l i0 = some (j, b) →
      i0 ≤ j ∧ l[j - i0]? = some b ∧ b.isFree = true ∧ size ≤ b.size
  | [], _, _, _, h => by simp [findFirstFitGo] at h
  | c :: rest, i0, j, b, h => by
    rw [findFirstFitGo] at h
    by_cases hc : (c.isFree && decide (size ≤ c.size)) = true
    · rw [if_pos hc] at h
      obtain ⟨rfl, rfl⟩ : i0 = j ∧ c = b := by
        simpa [Prod.ext_iff] using h
      simp only [Bool.and_eq_true, decide_eq_true_eq] at hc
      exact ⟨le_refl _, by simp, hc.1, hc.2⟩
    · rw [if_neg hc] at h
      obtain ⟨h1, h2, h3, h4⟩ := findFirstFitGo_sound size rest (i0 + 1) j b h
      refine ⟨by omega, ?_, h3, h4⟩
      have hji : j - i0 = (j - (i0 + 1)) + 1 := by omega
      rw [hji, List.getElem?_cons_succ]
      exact h2

/-- Accumulator-style soundness of the BEST_FIT scan: any property that the
carried candidate has and that every accepted block would have, the result
has. -/
theorem findBestFitGo_sound (size : Nat) (Q : Nat → MemoryBlock → Prop) :
    ∀ (l : List MemoryBlock) (i0 : Nat) (acc : Option (Nat × MemoryBlock))
      (sd : Option Nat) (j : Nat) (b : MemoryBlock),
      (∀ j' b', acc = some (j', b') → Q j' b') →
      (∀ k bk, l[k]? = some bk → bk.isFree = true → size ≤ bk.size → Q (i0 + k) bk) →
      findBestFitGo size l i0 acc sd = some (j, b) → Q j b
  | [], _, acc, sd, j, b, hacc, _, h => hacc j b (by simpa [findBestFitGo] using h)
  | c :: rest, i0, acc, sd, j, b, hacc, hQ, h => by
    simp only [findBestFitGo] at h
    split at h
    · next hc =>
      refine findBestFitGo_sound size Q rest (i0 + 1) _ _ j b ?_ ?_ h
      · intro j' b' hb'
        obtain ⟨rfl, rfl⟩ : i0 = j' ∧ c = b' := by simpa [Prod.ext_iff] using hb'
        simp only [Bool.and_eq_true, decide_eq_true_eq] at hc
        have := hQ 0 c (by simp) hc.1.1 hc.1.2
        simpa using this
      · intro k bk hk hf hs
        have := hQ (k + 1) bk (by simpa using hk) hf hs
        simpa [Nat.add_assoc, Nat.add_comm 1 k] using this
    · next hc =>
      refine findBestFitGo_sound size Q rest (i0 + 1) _ _ j b hacc ?_ h
      intro k bk hk hf hs
      have := hQ (k + 1) bk (by simpa using hk) hf hs
      simpa [Nat.add_assoc, Nat.add_comm 1 k] using this

/-- Accumulator-style soundness of the WORST_FIT scan. -/
theorem findWorstFitGo_sound (size : Nat) (Q : Nat → MemoryBlock → Prop) :
    ∀ (l : List MemoryBlock) (i0 : Nat) (acc : Option (Nat × MemoryBlock))
      (ld : Nat) (j : Nat) (b : MemoryBlock),
      (∀ j' b', acc = some (j', b') → Q j' b') →
      (∀ k bk, l[k]? = some bk → bk.isFree = true → size ≤ bk.size → Q (i0 + k) bk) →
      findWorstFitGo size l i0 acc ld = some (j, b) → Q j b
  | [], _, acc, ld, j, b, hacc, _, h => hacc j b (by simpa [findWorstFitGo] using h)
  | c :: rest, i0, acc, ld, j, b, hacc, hQ, h => by
    simp only [findWorstFitGo] at h
    split at h
    · next hc =>
      refine findWorstFitGo_sound size Q rest (i0 + 1) _ _ j b ?_ ?_ h
      · intro j' b' hb'
        obtain ⟨rfl, rfl⟩ : i0 = j' ∧ c = b' := by simpa [Prod.ext_iff] using hb'
        simp only [Bool.and_eq_true, decide_eq_true_eq] at hc
        have := hQ 0 c (by simp) hc.1.1 hc.1.2
        simpa using this
      · intro k bk hk hf hs
        have := hQ (k + 1) bk (by simpa using hk) hf hs
        simpa [Nat.add_assoc, Nat.add_comm 1 k] using this
    · next hc =>
      refine findWorstFitGo_sound size Q rest (i0 + 1) _ _ j b hacc ?_ h
      intro k bk hk hf hs
      have := hQ (k + 1) bk (by simpa using hk) hf hs
      simpa [Nat.add_assoc, Nat.add_comm 1 k] using this

/-- Whatever the active strategy, findSuitableBlock returns a free block of
sufficient size together with its index. -/
theorem findSuitableBlock_sound (a : MemoryAllocator) (size i : Nat)
    (b : MemoryBlock) (h : a.findSuitableBlock size = some (i, b)) :
    a.memoryBlocks[i]? = some b ∧ b.isFree = true ∧ size ≤ b.size := by
  unfold MemoryAllocator.findSuitableBlock at h
  cases hs : a.strategy with
  | FIRST_FIT =>
    rw [hs] at h
    obtain ⟨_, h2, h3, h4⟩ := findFirstFitGo_sound size a.memoryBlocks 0 i b h
    exact ⟨by simpa using h2, h3, h4⟩
  | BEST_FIT =>
    rw [hs] at h
    refine findBestFitGo_sound size
      (fun j bj => a.memoryBlocks[j]? = some bj ∧ bj.isFree = true ∧ size ≤ bj.size)
      a.memoryBlocks 0 none none i b ?_ ?_ h
    · intro j' b' hb'; cases hb'
    · intro k bk hk hf hsz; exact ⟨by simpa using hk, hf, hsz⟩
  | WORST_FIT =>
    rw [hs] at h
    refine findWorstFitGo_sound size
      (fun j bj => a.memoryBlocks[j]? = some bj ∧ bj.isFree = true ∧ size ≤ bj.size)
      a.memoryBlocks 0 none 0 i b ?_ ?_ h
    · intro j' b' hb'; cases hb'
    · intro k bk hk hf hsz; exact ⟨by simpa using hk, hf, hsz⟩

/-! ### Allocate preserves the coalescing invariant -/

/-- The list produced by allocate's mutation (split when strictly larger, then
flag the chosen block allocated) still has no two adjacent free blocks when
the input list had none and index `i` holds a free block of sufficient size.
The conjuncts about the head drive the induction: at index 0 the new head is
allocated, at a positive index the head is untouched. -/
theorem chain_allocStep (size : Nat) :
    ∀ (l : List MemoryBlock) (i : Nat) (b : MemoryBlock),
      l.Chain' FreeSep → l[i]? = some b → b.isFree = true → size ≤ b.size →
      (markAllocated (if size < b.size then splitBlock l i size else l) i).Chain'
          FreeSep ∧
      (i = 0 →
        ∀ y ∈ (markAllocated (if size < b.size then splitBlock l i size else l)
            i).head?, y.isFree = false) ∧
      (0 < i →
        (markAllocated (if size < b.size then splitBlock l i size else l) i).head?
          = l.head?)
  | [], i, b, _, hib, _, _ => by simp at hib
  | c :: rest, 0, b, h, hib, hbfree, hbsz => by
    obtain rfl : c = b := by simpa using hib
    by_cases hsz : size < c.size
    · rw [if_pos hsz]
      have hrem : 0 < c.size - size := by omega
      simp only [splitBlock, if_pos hrem, markAllocated]
      refine ⟨?_, ?_, fun h0 => absurd h0 (by omega)⟩
      · refine List.chain'_cons.mpr ⟨Or.inl rfl, ?_⟩
        refine List.chain'_cons'.mpr ⟨?_, (List.chain'_cons'.mp h).2⟩
        intro y hy
        exact ((List.chain'_cons'.mp h).1 y hy).elim
          (fun hc => absurd hbfree (by simp [hc])) Or.inr
      · intro _ y hy
        simp only [List.head?_cons, Option.mem_def, Option.some.injEq] at hy
        subst hy; rfl
    · rw [if_neg hsz]
      simp only [markAllocated]
      refine ⟨?_, ?_, fun h0 => absurd h0 (by omega)⟩
      · exact List.chain'_cons'.mpr
          ⟨fun y _ => Or.inl rfl, (List.chain'_cons'.mp h).2⟩
      · intro _ y hy
        simp only [List.head?_cons, Option.mem_def, Option.some.injEq] at hy
        subst hy; rfl
  | c :: rest, i + 1, b, h, hib, hbfree, hbsz => by
    have hib' : rest[i]? = some b := by simpa using hib
    have htail : rest.Chain' FreeSep := (List.chain'_cons'.mp h).2
    have hhead := (List.chain'_cons'.mp h).1
    obtain ⟨hinner, hinner0, hinnerS⟩ :=
      chain_allocStep size rest i b htail hib' hbfree hbsz
    by_cases hsz : size < b.size
    · rw [if_pos hsz] at hinner hinner0 hinnerS ⊢
      simp only [splitBlock, markAllocated]
      refine ⟨List.chain'_cons'.mpr ⟨?_, hinner⟩,
        fun h0 => absurd h0 (by omega), ?_⟩
      · intro y hy
        cases i with
        | zero => exact Or.inr (hinner0 rfl y hy)
        | succ j =>
          rw [hinnerS (by omega)] at hy
          exact hhead y hy
      · intro _
        simp
    · rw [if_neg hsz] at hinner hinner0 hinnerS ⊢
      simp only [markAllocated]
      refine ⟨List.chain'_cons'.mpr ⟨?_, hinner⟩,
        fun h0 => absurd h0 (by omega), ?_⟩
      · intro y hy
        cases i with
        | zero => exact Or.inr (hinner0 rfl y hy)
        | succ j =>
          rw [hinnerS (by omega)] at hy
          exact hhead y hy
      · intro _
        simp

/-- Claim C2 — After every public arena operation (allocate, deallocate,
setAllocationStrategy; the queries are pure and return the state unchanged by
construction), no two adjacent blocks in the arena's ordered block list are
both free: an allocate that succeeds preserves the invariant (its split leaves
the trailing free remainder between the freshly allocated block and the
previously non-free right neighbour), a deallocate that succeeds
re-establishes it through mergeFreeBlocks, and a strategy switch does not
touch the block list.  Failing operations leave the state unchanged. -/
theorem spec_c2_no_adjacent_free_preserved (a : MemoryAllocator)
    (h : noAdjacentFree a.memoryBlocks) :
    (∀ size addr a', a.allocate size = .ok (addr, a') →
      noAdjacentFree a'.memoryBlocks) ∧
    (∀ addr a', a.deallocate addr = .ok a' → noAdjacentFree a'.memoryBlocks) ∧
    (∀ s, noAdjacentFree (a.setAllocationStrategy s).memoryBlocks) := by
  refine ⟨?_, ?_, fun s => h⟩
  · intro size addr a' halloc
    unfold MemoryAllocator.allocate at halloc
    by_cases hz : size = 0
    · simp [hz] at halloc
    rw [if_neg hz] at halloc
    cases hfind : a.findSuitableBlock size with
    | none => rw [hfind] at halloc; cases halloc
    | some ib =>
      obtain ⟨i, b⟩ := ib
      rw [hfind] at halloc
      obtain ⟨hib, hbfree, hbsz⟩ := findSuitableBlock_sound a size i b hfind
      simp only [Except.ok.injEq, Prod.mk.injEq] at halloc
      obtain ⟨h1, h2⟩ := halloc
      subst h2
      exact (chain_allocStep size a.memoryBlocks i b h hib hbfree hbsz).1
  · intro addr a' hdealloc
    unfold MemoryAllocator.deallocate at hdealloc
    cases hfind : a.memoryBlocks.findIdx? (fun b => b.address == addr) with
    | none => rw [hfind] at hdealloc; cases hdealloc
    | some i =>
      rw [hfind] at hdealloc
      simp only [Except.ok.injEq] at hdealloc
      subst hdealloc
      exact chain_mergeFreeBlocks (setFreeTrue a.memoryBlocks i)

/-- Witness for C2 at a concrete arena. -/
theorem spec_c2_no_adjacent_free_preserved_witness :
    noAdjacentFree [(⟨0, 30, false⟩ : MemoryBlock), ⟨30, 70, true⟩] ∧
    noAdjacentFree
      ((mkMemoryAllocator 100 .FIRST_FIT).setAllocationStrategy .BEST_FIT).memoryBlocks := by
  have h := spec_c2_no_adjacent_free_preserved (mkMemoryAllocator 100 .FIRST_FIT)
    (by decide)
  refine ⟨?_, h.2.2 .BEST_FIT⟩
  have h30 : (mkMemoryAllocator 100 .FIRST_FIT).allocate 30
      = .ok (0, ⟨[⟨0, 30, false⟩, ⟨30, 70, true⟩], 100, .FIRST_FIT⟩) := by decide
  simpa using h.1 30 0 ⟨[⟨0, 30, false⟩, ⟨30, 70, true⟩], 100, .FIRST_FIT⟩ h30

/-! ### Round-trip: deallocate after allocate restores the block list -/

/-- Merging does not touch a head that cannot be absorbed into. -/
theorem mergeFreeBlocks_cons_of_not_both (c y : MemoryBlock)
    (ys : List MemoryBlock) (h : (c.isFree && y.isFree) = false) :
    mergeFreeBlocks (c :: y :: ys) = c :: mergeFreeBlocks (y :: ys) := by
  simp [mergeFreeBlocks, mergeGo, h]

/-- FreeSep expressed on the Bool conjunction. -/
theorem FreeSep.and_false {x y : MemoryBlock} (h : FreeSep x y) :
    (x.isFree && y.isFree) = false := by
  rcases h with h1 | h1 <;> simp [h1]

/-- Contiguous blocks all start at or after the running address. -/
theorem contiguous_le :
    ∀ (s : Nat) (l : List MemoryBlock), blocksContiguousB s l = true →
      ∀ y ∈ l, s ≤ y.address
  | _, [], _, y, hy => by cases hy
  | s, c :: rest, h, y, hy => by
    simp only [blocksContiguousB, Bool.and_eq_true, beq_iff_eq] at h
    rcases List.mem_cons.mp hy with rfl | hy'
    · omega
    · have := contiguous_le (c.address + c.size) rest h.2 y hy'
      omega

/-- Contiguity plus positive sizes give strictly increasing addresses. -/
theorem contiguous_pairwise_lt :
    ∀ (s : Nat) (l : List MemoryBlock), blocksContiguousB s l = true →
      (∀ b ∈ l, 0 < b.size) →
      l.Pairwise (fun x y => x.address < y.address)
  | _, [], _, _ => List.Pairwise.nil
  | s, c :: rest, h, hpos => by
    simp only [blocksContiguousB, Bool.and_eq_true, beq_iff_eq] at h
    refine List.pairwise_cons.mpr ⟨?_, ?_⟩
    · intro y hy
      have h1 := contiguous_le (c.address + c.size) rest h.2 y hy
      have h2 := hpos c (by simp)
      omega
    · exact contiguous_pairwise_lt _ rest h.2 (fun b hb => hpos b (by simp [hb]))

/-- The core round-trip fact: after allocate's mutation at index `i`, looking
the returned address up again finds index `i`, and flagging it free followed
by one mergeFreeBlocks pass restores the original block list exactly —
provided the original list satisfied the coalescing invariant and had
strictly increasing addresses, and the chosen block was free and large
enough. -/
theorem roundTripGo (size : Nat) :
    ∀ (l : List MemoryBlock) (i : Nat) (b : MemoryBlock),
      l.Chain' FreeSep → l.Pairwise (fun x y => x.address < y.address) →
      l[i]? = some b → b.isFree = true → size ≤ b.size →
      (markAllocated (if size < b.size then splitBlock l i size else l)
          i).findIdx? (fun x => x.address == b.address) = some i ∧
      mergeFreeBlocks (setFreeTrue
        (markAllocated (if size < b.size then splitBlock l i size else l) i) i)
        = l
  | [], i, b, _, _, hib, _, _ => by simp at hib
  | c :: rest, 0, b, h, _, hib, hbfree, hbsz => by
    obtain rfl : c = b := by simpa using hib
    by_cases hsz : size < c.size
    · rw [if_pos hsz]
      have hrem : 0 < c.size - size := by omega
      simp only [splitBlock, if_pos hrem, markAllocated, setFreeTrue]
      constructor
      · simp
      · have hstep : mergeFreeBlocks
            ((⟨c.address, size, true⟩ : MemoryBlock) ::
              (⟨c.address + size, c.size - size, true⟩ : MemoryBlock) :: rest)
            = mergeFreeBlocks
              ((⟨c.address, size + (c.size - size), true⟩ : MemoryBlock) :: rest) := by
          simp [mergeFreeBlocks, mergeGo]
        have hsum : size + (c.size - size) = c.size := by omega
        rw [hsum] at hstep
        have hc : (⟨c.address, c.size, true⟩ : MemoryBlock) = c := by
          cases c
          simp only [MemoryBlock.mk.injEq, true_and]
          simpa using hbfree.symm
        rw [hc] at hstep
        have hlit : ({ c with size := size, isFree := true } : MemoryBlock)
            = (⟨c.address, size, true⟩ : MemoryBlock) := rfl
        rw [hlit, hstep]
        exact mergeFreeBlocks_of_chain (c :: rest) h
    · rw [if_neg hsz]
      simp only [markAllocated, setFreeTrue]
      constructor
      · simp
      · have hc : { c with isFree := true } = c := by
          cases c
          simp only [MemoryBlock.mk.injEq, true_and]
          simpa using hbfree.symm
        rw [hc]
        exact mergeFreeBlocks_of_chain (c :: rest) h
  | c :: rest, i + 1, b, h, hpw, hib, hbfree, hbsz => by
    have hib' : rest[i]? = some b := by simpa using hib
    have htail : rest.Chain' FreeSep := (List.chain'_cons'.mp h).2
    have hhead := (List.chain'_cons'.mp h).1
    have hpw' := List.pairwise_cons.mp hpw
    have hcb : c.address < b.address := hpw'.1 b (List.getElem?_mem hib')
    have hne : (c.address == b.address) = false := beq_eq_false_iff_ne.mpr (by omega)
    obtain ⟨ihFind, ihMerge⟩ :=
      roundTripGo size rest i b htail hpw'.2 hib' hbfree hbsz
    rcases hrest : rest with _ | ⟨r0, rest'⟩
    · subst hrest; simp at hib'
    subst hrest
    have hYhead : ∃ y ys,
        setFreeTrue (markAllocated
          (if size < b.size then splitBlock (r0 :: rest') i size
           else r0 :: rest') i) i = y :: ys ∧
        (c.isFree && y.isFree) = false := by
      cases i with
      | zero =>
        obtain rfl : r0 = b := by simpa using hib'
        have hcfree : c.isFree = false := by
          rcases hhead r0 (by simp) with h1 | h1
          · exact h1
          · exact absurd hbfree (by simp [h1])
        by_cases hsz : size < r0.size
        · rw [if_pos hsz]
          have hrem : 0 < r0.size - size := by omega
          refine ⟨{ r0 with size := size, isFree := true },
            (⟨r0.address + size, r0.size - size, true⟩ : MemoryBlock) :: rest',
            ?_, by simp [hcfree]⟩
          simp [splitBlock, markAllocated, setFreeTrue, hrem, hsz]
        · rw [if_neg hsz]
          exact ⟨{ r0 with isFree := true }, rest', rfl, by simp [hcfree]⟩
      | succ j =>
        have hsep : FreeSep c r0 := hhead r0 (by simp)
        by_cases hsz : size < b.size
        · rw [if_pos hsz]
          exact ⟨r0, setFreeTrue (markAllocated (splitBlock rest' j size) j) j,
            rfl, hsep.and_false⟩
        · rw [if_neg hsz]
          exact ⟨r0, setFreeTrue (markAllocated rest' j) j, rfl, hsep.and_false⟩
    by_cases hsz : size < b.size
    · rw [if_pos hsz] at ihFind ihMerge hYhead ⊢
      simp only [splitBlock, markAllocated, setFreeTrue]
      constructor
      · rw [List.findIdx?_cons, if_neg (by simp [hne]), List.findIdx?_succ,
          ihFind]
        rfl
      · obtain ⟨y, ys, hY, hnb⟩ := hYhead
        rw [hY, mergeFreeBlocks_cons_of_not_both c y ys hnb, ← hY, ihMerge]
    · rw [if_neg hsz] at ihFind ihMerge hYhead ⊢
      simp only [markAllocated, setFreeTrue]
      constructor
      · rw [List.findIdx?_cons, if_neg (by simp [hne]), List.findIdx?_succ,
          ihFind]
        rfl
      · obtain ⟨y, ys, hY, hnb⟩ := hYhead
        rw [hY, mergeFreeBlocks_cons_of_not_both c y ys hnb, ← hY, ihMerge]

/-- Unfolding deallocate when the address lookup hits index `i`. -/
theorem deallocate_eq_of_findIdx (a : MemoryAllocator) (addr i : Nat)
    (h : a.memoryBlocks.findIdx? (fun b => b.address == addr) = some i) :
    a.deallocate addr
      = .ok { a with memoryBlocks := mergeFreeBlocks (setFreeTrue a.memoryBlocks i) } := by
  unfold MemoryAllocator.deallocate
  rw [h]

/-- Unfolding deallocate when the address lookup misses. -/
theorem deallocate_eq_of_findIdx_none (a : MemoryAllocator) (addr : Nat)
    (h : a.memoryBlocks.findIdx? (fun b => b.address == addr) = none) :
    a.deallocate addr = .error .invalidAddress := by
  unfold MemoryAllocator.deallocate
  rw [h]

/-- Claim C4 — For every arena state satisfying the block invariants and
every size n for which allocate(n) succeeds, immediately deallocating the
returned address yields a state whose total free memory equals the total free
memory before the allocate, and whose fragmentation ratio is at most the
fragmentation ratio before the allocate.  (The proof shows the stronger fact
that the state returns exactly to the pre-allocate state.) -/
theorem spec_c4_round_trip (a : MemoryAllocator) (n addr : Nat)
    (a' : MemoryAllocator) (hwf : a.WF)
    (halloc : a.allocate n = .ok (addr, a')) :
    ∃ a'', a'.deallocate addr = .ok a'' ∧
      a''.getTotalFreeMemory = a.getTotalFreeMemory ∧
      a''.getFragmentationRatio ≤ a.getFragmentationRatio := by
  unfold MemoryAllocator.allocate at halloc
  by_cases hz : n = 0
  · simp [hz] at halloc
  rw [if_neg hz] at halloc
  cases hfind : a.findSuitableBlock n with
  | none => rw [hfind] at halloc; cases halloc
  | some ib =>
    obtain ⟨i, b⟩ := ib
    rw [hfind] at halloc
    obtain ⟨hib, hbfree, hbsz⟩ := findSuitableBlock_sound a n i b hfind
    simp only [Except.ok.injEq, Prod.mk.injEq] at halloc
    obtain ⟨rfl, rfl⟩ := halloc
    have hpw := contiguous_pairwise_lt 0 a.memoryBlocks hwf.1 hwf.2.1
    obtain ⟨hfindIdx, hmerge⟩ :=
      roundTripGo n a.memoryBlocks i b hwf.2.2.2 hpw hib hbfree hbsz
    set M := markAllocated
      (if n < b.size then splitBlock a.memoryBlocks i n else a.memoryBlocks) i
      with hM
    refine ⟨a, ?_, rfl, le_refl _⟩
    have hd := deallocate_eq_of_findIdx { a with memoryBlocks := M }
      b.address i hfindIdx
    rw [hd]
    show Except.ok { a with memoryBlocks := mergeFreeBlocks (setFreeTrue M i) }
      = Except.ok a
    rw [hmerge]

/-- Witness for C4 at a concrete arena and request. -/
theorem spec_c4_round_trip_witness :
    ∃ a'', MemoryAllocator.deallocate
        ⟨[⟨0, 30, false⟩, ⟨30, 70, true⟩], 100, .FIRST_FIT⟩ 0 = .ok a'' ∧
      a''.getTotalFreeMemory
        = (mkMemoryAllocator 100 .FIRST_FIT).getTotalFreeMemory ∧
      a''.getFragmentationRatio
        ≤ (mkMemoryAllocator 100 .FIRST_FIT).getFragmentationRatio :=
  spec_c4_round_trip (mkMemoryAllocator 100 .FIRST_FIT) 30 0
    ⟨[⟨0, 30, false⟩, ⟨30, 70, true⟩], 100, .FIRST_FIT⟩ (by decide) (by decide)

/-! ### Claim C1: what deallocate actually rejects -/

/-- A successful findIdx? returns the index of an element satisfying the
predicate. -/
theorem findIdx?_found {α : Type} (p : α → Bool) :
    ∀ (l : List α) (i : Nat), l.findIdx? p = some i →
      ∃ b, l[i]? = some b ∧ p b = true
  | [], i, h => by simp at h
  | c :: rest, i, h => by
    rw [List.findIdx?_cons] at h
    by_cases hp : p c
    · rw [if_pos hp] at h
      obtain rfl : (0 : Nat) = i := by simpa using h
      exact ⟨c, by simp, hp⟩
    · rw [if_neg hp, List.findIdx?_succ] at h
      cases hrec : rest.findIdx? p with
      | none => rw [hrec] at h; simp at h
      | some j =>
        rw [hrec] at h
        obtain rfl : j + 1 = i := by simpa using h
        obtain ⟨b, hb, hpb⟩ := findIdx?_found p rest j hrec
        exact ⟨b, by simpa using hb, hpb⟩

/-- Flagging an already-free block free again does not change the list. -/
theorem setFreeTrue_of_free :
    ∀ (l : List MemoryBlock) (i : Nat) (b : MemoryBlock),
      l[i]? = some b → b.isFree = true → setFreeTrue l i = l
  | [], _, _, h, _ => by simp at h
  | c :: rest, 0, b, h, hf => by
    obtain rfl : c = b := by simpa using h
    simp only [setFreeTrue]
    have : ({ c with isFree := true } : MemoryBlock) = c := by
      cases c
      simp only [MemoryBlock.mk.injEq, true_and]
      simpa using hf.symm
    rw [this]
  | c :: rest, i + 1, b, h, hf => by
    simp only [setFreeTrue]
    rw [setFreeTrue_of_free rest i b (by simpa using h) hf]

/-- Claim C1, corrected — deallocate throws InvalidAddress exactly when the
address is not the base address of any current block (i.e. it is absent from
the address map).  An address whose block is currently free but whose base
address is still in the map (the matching blocks are all free) is accepted:
the block is re-flagged free (a no-op) and re-coalescing changes nothing, so
the call silently succeeds with the state unchanged, instead of failing with
InvalidAddress as the original claim states. -/
theorem spec_c1_amended_deallocate_cases (a : MemoryAllocator) (addr : Nat)
    (h : noAdjacentFree a.memoryBlocks) :
    ((∀ b ∈ a.memoryBlocks, b.address ≠ addr) →
      a.deallocate addr = .error .invalidAddress) ∧
    ((∃ b ∈ a.memoryBlocks, b.address = addr) →
      (∀ b ∈ a.memoryBlocks, b.address = addr → b.isFree = true) →
      a.deallocate addr = .ok a) := by
  constructor
  · intro hnone
    refine deallocate_eq_of_findIdx_none a addr ?_
    rw [List.findIdx?_eq_none_iff]
    intro x hx
    exact beq_eq_false_iff_ne.mpr (hnone x hx)
  · intro hex hallfree
    cases hfind : a.memoryBlocks.findIdx? (fun b => b.address == addr) with
    | none =>
      exfalso
      rw [List.findIdx?_eq_none_iff] at hfind
      obtain ⟨b, hb, hba⟩ := hex
      have := hfind b hb
      simp [hba] at this
    | some i =>
      obtain ⟨b, hbi, hpb⟩ := findIdx?_found _ a.memoryBlocks i hfind
      have hba : b.address = addr := by simpa using hpb
      have hbfree : b.isFree = true :=
        hallfree b (List.getElem?_mem hbi) hba
      rw [deallocate_eq_of_findIdx a addr i hfind,
        setFreeTrue_of_free a.memoryBlocks i b hbi hbfree,
        mergeFreeBlocks_of_chain a.memoryBlocks h]

/-- Witness for the amended C1: on a concrete arena whose block at address 50
is free, deallocate(50) silently succeeds, and deallocate(77) (not a block
base) fails with InvalidAddress. -/
theorem spec_c1_amended_deallocate_cases_witness :
    MemoryAllocator.deallocate
        ⟨[⟨0, 50, false⟩, ⟨50, 50, true⟩], 100, .FIRST_FIT⟩ 77
      = .error .invalidAddress ∧
    MemoryAllocator.deallocate
        ⟨[⟨0, 50, false⟩, ⟨50, 50, true⟩], 100, .FIRST_FIT⟩ 50
      = .ok ⟨[⟨0, 50, false⟩, ⟨50, 50, true⟩], 100, .FIRST_FIT⟩ :=
  ⟨(spec_c1_amended_deallocate_cases
      ⟨[⟨0, 50, false⟩, ⟨50, 50, true⟩], 100, .FIRST_FIT⟩ 77 (by decide)).1
    (by decide),
   (spec_c1_amended_deallocate_cases
      ⟨[⟨0, 50, false⟩, ⟨50, 50, true⟩], 100, .FIRST_FIT⟩ 50 (by decide)).2
    (by decide) (by decide)⟩

/-- First intermediate state of the C1 counterexample run:
allocate(100) on a fresh 1024-byte FIRST_FIT arena. -/
def c1s1 : MemoryAllocator :=
  ⟨[⟨0, 100, false⟩, ⟨100, 924, true⟩], 1024, .FIRST_FIT⟩

/-- Second intermediate state: a second allocate(100). -/
def c1s2 : MemoryAllocator :=
  ⟨[⟨0, 100, false⟩, ⟨100, 100, false⟩, ⟨200, 824, true⟩], 1024, .FIRST_FIT⟩

/-- Third intermediate state: deallocate(0) frees the first block; its
neighbour at 100 is allocated, so nothing coalesces and address 0 stays in
the address map. -/
def c1s3 : MemoryAllocator :=
  ⟨[⟨0, 100, true⟩, ⟨100, 100, false⟩, ⟨200, 824, true⟩], 1024, .FIRST_FIT⟩

/-- Counterexample to C1 as stated: in the reachable state c1s3 the block at
address 0 is currently free, yet deallocate(0) does not fail with
InvalidAddress — it succeeds and leaves the state unchanged (a silent double
free). -/
theorem spec_c1_counterexample :
    (mkMemoryAllocator 1024 .FIRST_FIT).allocate 100 = .ok (0, c1s1) ∧
    c1s1.allocate 100 = .ok (100, c1s2) ∧
    c1s2.deallocate 0 = .ok c1s3 ∧
    c1s3.memoryBlocks.head? = some ⟨0, 100, true⟩ ∧
    c1s3.deallocate 0 = .ok c1s3 := by decide

/-! ### Claim C3: WORST_FIT never accepts an exact fit -/

/-- Claim C3 is violated by the code: on a fresh 100-byte arena under
WORST_FIT there is a free block that fits the request 100 exactly, yet
allocate(100) throws AllocationFailedException ("No suitable memory block
found") because the scan starts `largestDifference` at 0 and only accepts a
block when `difference > largestDifference`, so a remainder-0 block is never
selected. -/
theorem spec_c3_worst_fit_exact_fit_fails :
    ((mkMemoryAllocator 100 .WORST_FIT).memoryBlocks.any
        (fun b => b.isFree && 100 ≤ b.size)) = true ∧
    (mkMemoryAllocator 100 .WORST_FIT).allocate 100 = .error .noFit := by
  decide

/-! ### Claim C10: the fragmentation ratio is total and stays in [0, 1] -/

/-- The largest-free-block scan is bounded by the accumulator plus the total
free memory. -/
theorem largestFreeGo_le :
    ∀ (l : List MemoryBlock) (acc : Nat),
      largestFreeGo l acc ≤ acc + totalFreeMemory l
  | [], acc => by simp [largestFreeGo, totalFreeMemory]
  | b :: rest, acc => by
    simp only [largestFreeGo, totalFreeMemory]
    by_cases hb : (b.isFree && decide (acc < b.size)) = true
    · rw [if_pos hb]
      simp only [Bool.and_eq_true, decide_eq_true_eq] at hb
      have := largestFreeGo_le rest b.size
      rw [if_pos hb.1]
      omega
    · rw [if_neg hb]
      have := largestFreeGo_le rest acc
      by_cases hf : b.isFree = true
      · rw [if_pos hf]; omega
      · rw [if_neg hf]; omega

/-- The largest free block size never exceeds the total free memory. -/
theorem getLargestFreeBlock_le (a : MemoryAllocator) :
    a.getLargestFreeBlock ≤ a.getTotalFreeMemory := by
  simpa using largestFreeGo_le a.memoryBlocks 0

/-- Claim C10 — getFragmentationRatio is total (the division is guarded): it
returns 0 when the total free memory is zero, and otherwise returns
1 − largestFreeBlock / totalFreeMemory, a value that always lies in [0, 1]. -/
theorem spec_c10_fragmentation_ratio_bounds (a : MemoryAllocator) :
    a.getFragmentationRatio
        = (if a.getTotalFreeMemory = 0 then 0
           else 1 - (a.getLargestFreeBlock : ℚ) / (a.getTotalFreeMemory : ℚ)) ∧
    0 ≤ a.getFragmentationRatio ∧ a.getFragmentationRatio ≤ 1 := by
  refine ⟨rfl, ?_, ?_⟩
  · rw [MemoryAllocator.getFragmentationRatio]
    by_cases h0 : a.getTotalFreeMemory = 0
    · simp [h0]
    · rw [if_neg h0]
      have hTpos : (0 : ℚ) < (a.getTotalFreeMemory : ℚ) := by
        exact_mod_cast Nat.pos_of_ne_zero h0
      have hle : (a.getLargestFreeBlock : ℚ) ≤ (a.getTotalFreeMemory : ℚ) := by
        exact_mod_cast getLargestFreeBlock_le a
      have : (a.getLargestFreeBlock : ℚ) / (a.getTotalFreeMemory : ℚ) ≤ 1 :=
        (div_le_one hTpos).mpr hle
      linarith
  · rw [MemoryAllocator.getFragmentationRatio]
    by_cases h0 : a.getTotalFreeMemory = 0
    · simp [h0]
    · rw [if_neg h0]
      have hTpos : (0 : ℚ) < (a.getTotalFreeMemory : ℚ) := by
        exact_mod_cast Nat.pos_of_ne_zero h0
      have : (0 : ℚ) ≤ (a.getLargestFreeBlock : ℚ) / (a.getTotalFreeMemory : ℚ) :=
        div_nonneg (by positivity) (le_of_lt hTpos)
      linarith

/-!
### MemoryProfiler (MemoryProfiler.h / MemoryProfiler.cpp)

The `steady_clock` is the spec's injected monotonic clock; time points are
modelled as natural numbers (an operation receives the current `now` as an
explicit argument), and the default-constructed `time_point()` sentinel is
modelled as 0.  `std::map` becomes an association list sorted by key, which
matches the iteration order of the source; `std::deque` becomes a list whose
head is the front (oldest element).
-/

/-- struct AllocationRecord. -/
structure AllocationRecord where
  size : Nat
  address : Nat
  allocationTime : Nat
  deallocationTime : Nat
  isActive : Bool
  poolId : Nat
deriving DecidableEq, Repr

/-- struct MemoryProfiler::PerformanceMetrics.  `strategyEfficiency` is the
map from strategy to its efficiency score. -/
structure PerformanceMetrics where
  fragmentationRatio : ℚ
  averageAllocationTime : ℚ
  hitRate : ℚ
  failedAllocations : Nat
  strategyEfficiency : List (AllocationStrategy × ℚ)
deriving DecidableEq, Repr

/-- The profiler state: the bounded history deque, the lifetime distribution
(`std::map<size_t, vector<double>>`, durations in milliseconds held as
integers), the size-frequency map and the (never written) per-strategy
metrics map. -/
structure MemoryProfiler where
  allocationHistory : List AllocationRecord
  lifetimeDistribution : List (Nat × List Int)
  sizeFrequency : List (Nat × Nat)
  strategyMetrics : List (AllocationStrategy × PerformanceMetrics)
deriving DecidableEq, Repr

/-- `lifetimeDistribution[record.size].push_back(duration)` on the sorted
association list modelling the std::map. -/
def distAdd : List (Nat × List Int) → Nat → Int → List (Nat × List Int)
  | [], sz, d => [(sz, [d])]
  | (k, ds) :: rest, sz, d =>
    if sz < k then (sz, [d]) :: (k, ds) :: rest
    else if sz = k then (k, ds ++ [d]) :: rest
    else (k, ds) :: distAdd rest sz d

/-- `sizeFrequency[size]++` on the sorted association list. -/
def freqIncr : List (Nat × Nat) → Nat → List (Nat × Nat)
  | [], sz => [(sz, 1)]
  | (k, c) :: rest, sz =>
    if sz < k then (sz, 1) :: (k, c) :: rest
    else if sz = k then (k, c + 1) :: rest
    else (k, c) :: freqIncr rest sz

/-- `map.find(key)` on an association list. -/
def assocFind : List (Nat × Nat) → Nat → Option Nat
  | [], _ => none
  | (k, v) :: rest, key => if k = key then some v else assocFind rest key

/-- MemoryProfiler::recordAllocation: append a fresh active record, bump the
size frequency, and evict the oldest record once the history exceeds
10000 entries. -/
def MemoryProfiler.recordAllocation (p : MemoryProfiler) (now size address : Nat)
    (poolId : Nat) : MemoryProfiler :=
  let record : AllocationRecord := ⟨size, address, now, 0, true, poolId⟩
  let h := p.allocationHistory ++ [record]
  { p with
    allocationHistory := if 10000 < h.length then h.tail else h
    sizeFrequency := freqIncr p.sizeFrequency size }

/-- The loop of MemoryProfiler::recordDeallocation: walk the history from the
front (the OLDEST record first), flip the first active record with the given
address and push its lifetime into the distribution, then break. -/
def recordDeallocationGo (now addr : Nat) :
    List AllocationRecord → List (Nat × List Int) →
    List AllocationRecord × List (Nat × List Int)
  | [], dist => ([], dist)
  | r :: rest, dist =>
    if r.address == addr && r.isActive then
      ({ r with isActive := false, deallocationTime := now } :: rest,
       distAdd dist r.size ((now : Int) - (r.allocationTime : Int)))
    else
      let z := recordDeallocationGo now addr rest dist
      (r :: z.1, z.2)

/-- MemoryProfiler::recordDeallocation (with updateLifetimeStats inlined:
the duration pushed is `deallocationTime - allocationTime` of the modified
record, i.e. `now - allocationTime`). -/
def MemoryProfiler.recordDeallocation (p : MemoryProfiler) (now addr : Nat) :
    MemoryProfiler :=
  let z := recordDeallocationGo now addr p.allocationHistory p.lifetimeDistribution
  { p with allocationHistory := z.1, lifetimeDistribution := z.2 }

/-- The record-deallocation loop modifies exactly the first (oldest) matching
active record and updates the lifetime distribution with its size. -/
theorem recordDeallocationGo_spec (now addr : Nat) :
    ∀ (l : List AllocationRecord) (dist : List (Nat × List Int)) (i : Nat)
      (r : AllocationRecord),
      l.findIdx? (fun q => q.address == addr && q.isActive) = some i →
      l[i]? = some r →
      recordDeallocationGo now addr l dist
        = (l.set i { r with isActive := false, deallocationTime := now },
           distAdd dist r.size ((now : Int) - (r.allocationTime : Int)))
  | [], dist, i, r, hf, _ => by simp at hf
  | q :: rest, dist, i, r, hf, hr => by
    rw [List.findIdx?_cons] at hf
    by_cases hq : (q.address == addr && q.isActive) = true
    · rw [if_pos hq] at hf
      obtain rfl : (0 : Nat) = i := by simpa using hf
      obtain rfl : q = r := by simpa using hr
      simp [recordDeallocationGo, hq]
    · rw [if_neg hq, List.findIdx?_succ] at hf
      cases hrec : rest.findIdx? (fun q => q.address == addr && q.isActive) with
      | none => rw [hrec] at hf; simp at hf
      | some j =>
        rw [hrec] at hf
        obtain rfl : j + 1 = i := by simpa using hf
        have hr' : rest[j]? = some r := by simpa using hr
        have ih := recordDeallocationGo_spec now addr rest dist j r hrec hr'
        simp only [recordDeallocationGo, hq, if_neg, Bool.false_eq_true,
          not_false_iff, ih]
        simp [List.set]

/-- When no active record matches, the record-deallocation loop is a no-op. -/
theorem recordDeallocationGo_none (now addr : Nat) :
    ∀ (l : List AllocationRecord) (dist : List (Nat × List Int)),
      l.findIdx? (fun q => q.address == addr && q.isActive) = none →
      recordDeallocationGo now addr l dist = (l, dist)
  | [], dist, _ => rfl
  | q :: rest, dist, hf => by
    rw [List.findIdx?_cons] at hf
    by_cases hq : (q.address == addr && q.isActive) = true
    · rw [if_pos hq] at hf; cases hf
    · rw [if_neg hq, List.findIdx?_succ] at hf
      cases hrec : rest.findIdx? (fun q => q.address == addr && q.isActive) with
      | some j => rw [hrec] at hf; simp at hf
      | none =>
        have ih := recordDeallocationGo_none now addr rest dist hrec
        simp [recordDeallocationGo, hq, ih]

/-- Claim C7, corrected — recordDeallocation(address) walks the history from
the OLDEST record (the deque front) and modifies the first active record with
that address: it sets its deallocation time to now, flips active to false,
and appends the lifetime `now - allocation_time` to that size's lifetime
statistics; everything else (including the size-frequency map) is unchanged.
In particular, when two or more active records share the address, the OLDEST
one — not the most recent one — is the record modified. -/
theorem spec_c7_amended_oldest_record_flipped (p : MemoryProfiler)
    (now addr i : Nat) (r : AllocationRecord)
    (hfind : p.allocationHistory.findIdx?
        (fun q => q.address == addr && q.isActive) = some i)
    (hr : p.allocationHistory[i]? = some r) :
    (p.recordDeallocation now addr).allocationHistory
        = p.allocationHistory.set i
            { r with isActive := false, deallocationTime := now } ∧
    (p.recordDeallocation now addr).lifetimeDistribution
        = distAdd p.lifetimeDistribution r.size
            ((now : Int) - (r.allocationTime : Int)) ∧
    (p.recordDeallocation now addr).sizeFrequency = p.sizeFrequency := by
  have h := recordDeallocationGo_spec now addr p.allocationHistory
    p.lifetimeDistribution i r hfind hr
  unfold MemoryProfiler.recordDeallocation
  rw [h]
  exact ⟨rfl, rfl, rfl⟩

/-- Witness for the amended C7 at a concrete two-record history. -/
theorem spec_c7_amended_oldest_record_flipped_witness :
    (MemoryProfiler.recordDeallocation
        ⟨[⟨16, 7, 1, 0, true, 0⟩, ⟨16, 7, 2, 0, true, 0⟩], [], [(16, 2)], []⟩
        10 7).allocationHistory
      = [⟨16, 7, 1, 10, false, 0⟩, ⟨16, 7, 2, 0, true, 0⟩] ∧
    (MemoryProfiler.recordDeallocation
        ⟨[⟨16, 7, 1, 0, true, 0⟩, ⟨16, 7, 2, 0, true, 0⟩], [], [(16, 2)], []⟩
        10 7).lifetimeDistribution = [(16, [(9 : Int)])] := by
  have h := spec_c7_amended_oldest_record_flipped
    ⟨[⟨16, 7, 1, 0, true, 0⟩, ⟨16, 7, 2, 0, true, 0⟩], [], [(16, 2)], []⟩
    10 7 0 ⟨16, 7, 1, 0, true, 0⟩ (by decide) (by decide)
  refine ⟨?_, ?_⟩
  · rw [h.1]; decide
  · rw [h.2.1]; decide

/-- Counterexample to C7 as stated: a history with two active records at the
same address 7 (the one with allocation time 1 is older, the one with
allocation time 2 was appended later, i.e. is the most recent).  The code
flips the OLDEST record — the most recent active record with that address is
left untouched and still active, contradicting the claim that the newest one
is modified. -/
theorem spec_c7_counterexample :
    (MemoryProfiler.recordDeallocation
        ⟨[⟨32, 7, 1, 0, true, 0⟩, ⟨32, 7, 2, 0, true, 0⟩], [], [(32, 2)], []⟩
        10 7).allocationHistory
      = [⟨32, 7, 1, 10, false, 0⟩, ⟨32, 7, 2, 0, true, 0⟩] ∧
    ((MemoryProfiler.recordDeallocation
        ⟨[⟨32, 7, 1, 0, true, 0⟩, ⟨32, 7, 2, 0, true, 0⟩], [], [(32, 2)], []⟩
        10 7).allocationHistory[1]?.map AllocationRecord.isActive
      = some true) := by decide

/-!
### MemoryLeakDetector (MemoryLeakDetector.h / MemoryLeakDetector.cpp)

The process-wide singleton is modelled as a state value threaded through the
controller.  `std::unordered_map` becomes an association list with unique
keys (its unspecified iteration order is never observed by the claims);
`operator[]` overwrites an existing entry in place.
-/

/-- struct AllocationInfo. -/
structure AllocationInfo where
  size : Nat
  allocationTime : Nat
  callStack : String
  lineNumber : Nat
  fileName : String
deriving DecidableEq, Repr

/-- The leak detector: the active-address map and the append-only history. -/
structure MemoryLeakDetector where
  activeAllocations : List (Nat × AllocationInfo)
  allocationHistory : List (Nat × AllocationInfo)
deriving DecidableEq, Repr

/-- `activeAllocations[address] = info` (insert or overwrite). -/
def assocReplace :
    List (Nat × AllocationInfo) → Nat → AllocationInfo → List (Nat × AllocationInfo)
  | [], a, v => [(a, v)]
  | (k, w) :: rest, a, v =>
    if k = a then (k, v) :: rest else (k, w) :: assocReplace rest a v

/-- `activeAllocations.erase(it)` for the entry with the given key. -/
def assocErase : List (Nat × AllocationInfo) → Nat → List (Nat × AllocationInfo)
  | [], _ => []
  | (k, w) :: rest, a => if k = a then rest else (k, w) :: assocErase rest a

/-- MemoryLeakDetector::recordAllocation; captureCallStack() always returns
the fixed placeholder string. -/
def MemoryLeakDetector.recordAllocation (d : MemoryLeakDetector)
    (now address size : Nat) (file : String) (line : Nat) : MemoryLeakDetector :=
  let info : AllocationInfo :=
    ⟨size, now, "Call stack capture not implemented\n", line, file⟩
  { activeAllocations := assocReplace d.activeAllocations address info
    allocationHistory := d.allocationHistory ++ [(address, info)] }

/-- MemoryLeakDetector::recordDeallocation: erase the active entry when
present; on a miss only a warning is printed (no state change). -/
def MemoryLeakDetector.recordDeallocation (d : MemoryLeakDetector)
    (address : Nat) : MemoryLeakDetector :=
  { d with activeAllocations := assocErase d.activeAllocations address }

/-!
### Profiler analysis functions (MemoryProfiler.cpp, analysis half)

`std::sort` with comparator `a.second > b.second` leaves the relative order
of equal keys unspecified; the embedding uses a stable descending insertion
sort, which realises the spec's tie-break (the vector being sorted comes out
of a std::map in ascending key order, so ties keep the smaller key first).
No claim below depends on the tie order.
-/

/-- Stable insert for the descending-by-count sort. -/
def insertStableDesc : List (Nat × Nat) → (Nat × Nat) → List (Nat × Nat)
  | [], x => [x]
  | y :: ys, x => if y.2 < x.2 then x :: y :: ys else y :: insertStableDesc ys x

/-- Stable sort, descending by the second component. -/
def sortDescBySecond (l : List (Nat × Nat)) : List (Nat × Nat) :=
  l.foldl insertStableDesc []

/-- struct MemoryProfiler::AllocationPattern. -/
structure AllocationPattern where
  commonSizes : List Nat
  averageLifetime : ℚ
  sizeDistribution : List (Nat × ℚ)
  hotSpots : List (Nat × Nat)
deriving DecidableEq, Repr

/-- The region-frequency map of identifyHotSpots: count records per
4096-byte region. -/
def regionFrequency (records : List AllocationRecord) : List (Nat × Nat) :=
  records.foldl (fun m r => freqIncr m (r.address / 4096)) []

/-- MemoryProfiler::getTotalAllocations. -/
def MemoryProfiler.getTotalAllocations (p : MemoryProfiler) : Nat :=
  p.allocationHistory.length

/-- MemoryProfiler::analyzePatterns.  The C++ builds `sizeDistribution` as a
std::map keyed by size whose values are `freq / totalAllocations`, where
`totalAllocations` is the sum of all frequencies; iterating the already
size-sorted `sizeFrequency` map reproduces it.  When the history is empty the
division never runs (the loop body is empty), matching the model. -/
def MemoryProfiler.analyzePatterns (p : MemoryProfiler) : AllocationPattern :=
  let sizeFreqVec := sortDescBySecond p.sizeFrequency
  let commonSizes := (sizeFreqVec.take 5).map Prod.fst
  let allLifetimes :=
    p.lifetimeDistribution.foldl (fun acc kv => acc ++ kv.2) ([] : List Int)
  let totalLifetime : ℚ := allLifetimes.foldl (fun s d => s + (d : ℚ)) 0
  let averageLifetime : ℚ :=
    if 0 < allLifetimes.length then totalLifetime / (allLifetimes.length : ℚ)
    else 0
  let totalAllocations : Nat := sizeFreqVec.foldl (fun s kv => s + kv.2) 0
  let sizeDistribution : List (Nat × ℚ) :=
    p.sizeFrequency.map (fun kv => (kv.1, (kv.2 : ℚ) / (totalAllocations : ℚ)))
  let hotSpots := (sortDescBySecond (regionFrequency p.allocationHistory)).take 10
  ⟨commonSizes, averageLifetime, sizeDistribution, hotSpots⟩

/-- MemoryProfiler::calculatePatternConfidence. -/
def calculatePatternConfidence (p : MemoryProfiler) (sizes : List Nat) : ℚ :=
  if sizes.isEmpty then 0
  else
    let totalAllocs : Nat := p.sizeFrequency.foldl (fun s kv => s + kv.2) 0
    let commonAllocs : Nat :=
      sizes.foldl (fun s sz => s + (assocFind p.sizeFrequency sz).getD 0) 0
    (commonAllocs : ℚ) / (totalAllocs : ℚ)

/-- `size - pattern.commonSizes[0]` in size_t arithmetic: unsigned wrap
modulo 2^64 (the C++ then converts the wrapped value to double inside
std::pow; the exact model ignores the double rounding of huge values — no
claim depends on this branch). -/
def sub64 (a b : Nat) : Nat := (((a : Int) - (b : Int)) % (2 ^ 64 : Int)).toNat

/-- MemoryProfiler::determineOptimalStrategy.  `pattern.commonSizes[0]` is
only evaluated inside the loop over `sizeDistribution`, which is empty
exactly when `commonSizes` is empty, so the out-of-bounds access never
happens on a live path; the model uses `headD 0` for it. -/
def determineOptimalStrategy (pattern : AllocationPattern) : AllocationStrategy :=
  let common0 := pattern.commonSizes.headD 0
  let sizeVariance : ℚ :=
    pattern.sizeDistribution.foldl
      (fun acc kv => acc + ((sub64 kv.1 common0 : ℚ)) ^ 2 * kv.2) 0
  let bestFitScore : ℚ := if sizeVariance < 1000 then 1/2 else 0
  let firstFitScore : ℚ := if sizeVariance < 1000 then 0 else 3/10
  let worstFitScore : ℚ := if 5 < pattern.hotSpots.length then 2/5 else 0
  let firstFitScore := firstFitScore +
    (if pattern.averageLifetime < 1000 then 2/5 else 0)
  let bestFitScore := bestFitScore +
    (if pattern.averageLifetime < 1000 then 0 else 3/10)
  if bestFitScore ≤ firstFitScore ∧ worstFitScore ≤ firstFitScore then
    .FIRST_FIT
  else if worstFitScore ≤ bestFitScore then .BEST_FIT
  else .WORST_FIT

/-- struct MemoryProfiler::Prediction.  The C++ leaves `nextLikelySize`
uninitialised when `commonSizes` is empty; the model uses 0. -/
structure Prediction where
  nextLikelySize : Nat
  recommendedStrategy : AllocationStrategy
  recommendedPoolSizes : List Nat
  confidence : ℚ
deriving DecidableEq, Repr

/-- MemoryProfiler::predictNextAllocation. -/
def MemoryProfiler.predictNextAllocation (p : MemoryProfiler) : Prediction :=
  let pattern := p.analyzePatterns
  { nextLikelySize := pattern.commonSizes.headD 0
    recommendedStrategy := determineOptimalStrategy pattern
    recommendedPoolSizes :=
      (pattern.sizeDistribution.filter (fun kv => (1 : ℚ) / 10 < kv.2)).map Prod.fst
    confidence := calculatePatternConfidence p pattern.commonSizes }

/-- The consecutive inter-arrival times of the allocation records
(getPerformanceMetrics' calculateAvgTime lambda). -/
def interArrival : List AllocationRecord → List Int
  | [] => []
  | [_] => []
  | a :: b :: rest =>
    ((b.allocationTime : Int) - (a.allocationTime : Int)) :: interArrival (b :: rest)

/-- `map.find(key)` on the rational-valued association list. -/
def qAssocFind : List (Nat × ℚ) → Nat → Option ℚ
  | [], _ => none
  | (k, v) :: rest, key => if k = key then some v else qAssocFind rest key

/-- MemoryProfiler::getPerformanceMetrics.  The profiler holds a pointer to
the allocator for the fragmentation ratio; the model passes the arena
explicitly.  With an empty history the C++ hit rate is 0.0/0 = NaN; in ℚ the
division yields 0 — the difference is unobservable on the paths used by the
claims (the history is nonempty whenever the hit rate is compared). -/
def getPerformanceMetrics (arena : MemoryAllocator) (p : MemoryProfiler) :
    PerformanceMetrics :=
  let diffs := interArrival p.allocationHistory
  let averageAllocationTime : ℚ :=
    if diffs.isEmpty then 0
    else (diffs.foldl (fun s d => s + (d : ℚ)) 0) / (diffs.length : ℚ)
  let successful := (p.allocationHistory.filter
    (fun r => r.isActive || r.deallocationTime != 0)).length
  let hitRate : ℚ := (successful : ℚ) / (p.allocationHistory.length : ℚ)
  { fragmentationRatio := arena.getFragmentationRatio
    averageAllocationTime := averageAllocationTime
    hitRate := hitRate
    failedAllocations := p.allocationHistory.length - successful
    strategyEfficiency := p.strategyMetrics.map (fun kv =>
      (kv.1, kv.2.hitRate * (2 / 5) + (1 - kv.2.fragmentationRatio) * (2 / 5)
        + (1 / (1 + kv.2.averageAllocationTime)) * (1 / 5))) }

/-- MemoryProfiler::shouldCreatePoolForSize:
`static_cast<size_t>(share * totalAllocations) >= threshold` (the cast of a
non-negative double truncates, i.e. floors). -/
def MemoryProfiler.shouldCreatePoolForSize (p : MemoryProfiler)
    (size threshold : Nat) : Bool :=
  let pattern := p.analyzePatterns
  match qAssocFind pattern.sizeDistribution size with
  | some share => threshold ≤ Nat.floor (share * (p.getTotalAllocations : ℚ))
  | none => false

/-!
### AdaptiveMemoryAllocator (AdaptiveMemoryAllocator.h / .cpp)

The base-class MemoryAllocator subobject is the `arena` field; the
process-wide leak-detector singleton reached through the RECORD_ALLOCATION /
RECORD_DEALLOCATION macros is the `leakDetector` field.  Methods that can
throw (through MemoryAllocator::allocate / deallocate) return `Except`; the
C++ exception propagates out of the controller, and where it unwinds past
already-performed mutations the model simply reports the error (no claim
below observes the state after a propagated exception).  `deallocate`
additionally returns `Option` because `pool.freeBlocks.front()` on an empty
`std::vector` is undefined behavior: `none` marks an execution that reaches
that undefined read. -/

/-- struct AdaptiveMemoryAllocator::MemoryPool.  The carve base address is
not stored: only the slot size, the free-slot vector, and the two
counters. -/
structure MemoryPool where
  blockSize : Nat
  freeBlocks : List Nat
  totalBlocks : Nat
  usedBlocks : Nat
deriving DecidableEq, Repr

/-- struct AdaptiveMemoryAllocator::AdaptiveParameters. -/
structure AdaptiveParameters where
  fragmentationThreshold : ℚ
  poolCreationThreshold : Nat
  adaptationInterval : Nat
  operationsSinceLastAdaptation : Nat
deriving DecidableEq, Repr

/-- class AdaptiveMemoryAllocator. -/
structure AdaptiveMemoryAllocator where
  arena : MemoryAllocator
  profiler : MemoryProfiler
  adaptiveMode : Bool
  memoryPools : List MemoryPool
  params : AdaptiveParameters
  leakDetector : MemoryLeakDetector
deriving DecidableEq, Repr

/-- The AdaptiveMemoryAllocator constructor: base MemoryAllocator(totalSize)
(FIRST_FIT default), adaptive mode on, fresh profiler, no pools, the default
parameters 0.3 / 100 / 1000 / 0, and the (initially empty) leak detector. -/
def mkAdaptiveMemoryAllocator (totalSize : Nat) : AdaptiveMemoryAllocator :=
  { arena := mkMemoryAllocator totalSize .FIRST_FIT
    profiler := ⟨[], [], [], []⟩
    adaptiveMode := true
    memoryPools := []
    params := ⟨3 / 10, 100, 1000, 0⟩
    leakDetector := ⟨[], []⟩ }

/-- AdaptiveMemoryAllocator::allocateFromPool: scan the pools in order, take
from the BACK of the first pool whose slot size fits and that has a free
slot; return 0 as the "no suitable pool" sentinel (address 0 is also a valid
address, faithfully modelled). -/
def allocateFromPool : List MemoryPool → Nat → Nat × List MemoryPool
  | [], _ => (0, [])
  | pool :: rest, size =>
    if size ≤ pool.blockSize && !pool.freeBlocks.isEmpty then
      let address := pool.freeBlocks.getLastD 0
      (address, { pool with freeBlocks := pool.freeBlocks.dropLast, usedBlocks := pool.usedBlocks + 1 } :: rest)
    else
      let z := allocateFromPool rest size
      (z.1, pool :: z.2)

/-- AdaptiveMemoryAllocator::createMemoryPool.  Three source quirks are kept:
a failed arena allocation THROWS (it does not return 0, so the
`baseAddress == 0` guard is not the failure path the comment claims); a
successful allocation AT address 0 is treated as a failure, discarding the
pool and leaking the arena block; and the slot list is built front to back
as `base + i * blockSize`. -/
def AdaptiveMemoryAllocator.createMemoryPool (s : AdaptiveMemoryAllocator)
    (blockSize blockCount : Nat) : Except AllocatorError AdaptiveMemoryAllocator :=
  match s.arena.allocate (blockSize * blockCount) with
  | .error e => .error e
  | .ok (baseAddress, arena') =>
    if baseAddress = 0 then .ok { s with arena := arena' }
    else
      .ok { s with arena := arena', memoryPools := s.memoryPools ++ [⟨blockSize, (List.range blockCount).map (fun i => baseAddress + i * blockSize), blockCount, 0⟩] }

/-- AdaptiveMemoryAllocator::updatePoolUtilization: mark pools whose
utilisation is below 0.2 by zeroing totalBlocks.  (With totalBlocks = 0 the
C++ divides by zero, producing NaN or inf, and does not re-mark; since the
pool is then already marked, the resulting state agrees with the ℚ model,
where 0/0 = 0 marks it again.) -/
def updatePoolUtilizationGo (pools : List MemoryPool) : List MemoryPool :=
  pools.map (fun pool =>
    if ((pool.usedBlocks : ℚ) / (pool.totalBlocks : ℚ)) < 1 / 5 then
      { pool with totalBlocks := 0 }
    else pool)

/-- Member wrapper for updatePoolUtilization. -/
def AdaptiveMemoryAllocator.updatePoolUtilization (s : AdaptiveMemoryAllocator) :
    AdaptiveMemoryAllocator :=
  { s with memoryPools := updatePoolUtilizationGo s.memoryPools }

/-- AdaptiveMemoryAllocator::cleanupUnusedPools: erase pools flagged with
totalBlocks == 0 (std::remove_if keeps the relative order). -/
def AdaptiveMemoryAllocator.cleanupUnusedPools (s : AdaptiveMemoryAllocator) :
    AdaptiveMemoryAllocator :=
  { s with memoryPools := s.memoryPools.filter (fun pool => pool.totalBlocks != 0) }

/-- The pool-creation loop of optimizePools over the recommended sizes; the
pool-existence check re-reads the current pool vector on every iteration,
and a thrown arena exception propagates. -/
def optimizePoolsLoop :
    AdaptiveMemoryAllocator → List Nat → ℚ →
    Except AllocatorError AdaptiveMemoryAllocator
  | s, [], _ => .ok s
  | s, size :: rest, confidence =>
    if s.memoryPools.any (fun pool => pool.blockSize == size) then
      optimizePoolsLoop s rest confidence
    else
      match s.createMemoryPool size (max 5 (Nat.floor (confidence * 20))) with
      | .error e => .error e
      | .ok s' => optimizePoolsLoop s' rest confidence

/-- AdaptiveMemoryAllocator::optimizePools. -/
def AdaptiveMemoryAllocator.optimizePools (s : AdaptiveMemoryAllocator) :
    Except AllocatorError AdaptiveMemoryAllocator :=
  let prediction := s.profiler.predictNextAllocation
  optimizePoolsLoop s.cleanupUnusedPools prediction.recommendedPoolSizes
    prediction.confidence

/-- The body of AdaptiveMemoryAllocator::adjustParameters, as a function of
the metrics it reads from the profiler.  The decimal literals 0.8, 0.95,
1.1, 0.9, 1.2 of the source are the exact rationals here; `size_t` *=
double truncates, i.e. floors.  Note: the fragmentation threshold is
multiplied WITHOUT any cap. -/
def adjustParametersCore (params : AdaptiveParameters)
    (metrics : PerformanceMetrics) : AdaptiveParameters :=
  let p1 :=
    if metrics.hitRate < 4 / 5 then
      { params with fragmentationThreshold := params.fragmentationThreshold * (11 / 10) }
    else if (19 / 20 : ℚ) < metrics.hitRate then
      { params with fragmentationThreshold := params.fragmentationThreshold * (9 / 10) }
    else params
  let p2 :=
    if 100 < metrics.failedAllocations then
      { p1 with poolCreationThreshold := Nat.floor ((p1.poolCreationThreshold : ℚ) * (9 / 10)) }
    else p1
  if 1000 < metrics.averageAllocationTime then
    { p2 with adaptationInterval := Nat.floor ((p2.adaptationInterval : ℚ) * (12 / 10)) }
  else
    { p2 with adaptationInterval := Nat.floor ((p2.adaptationInterval : ℚ) * (8 / 10)) }

/-- AdaptiveMemoryAllocator::adjustParameters (public member): reads the
metrics and updates the parameter block. -/
def AdaptiveMemoryAllocator.adjustParameters (s : AdaptiveMemoryAllocator) :
    AdaptiveMemoryAllocator :=
  { s with params := adjustParametersCore s.params (getPerformanceMetrics s.arena s.profiler) }

/-- AdaptiveMemoryAllocator::adaptStrategy.  adjustParameters re-reads the
metrics itself (after optimizePools may have changed the arena), exactly as
in the source. -/
def AdaptiveMemoryAllocator.adaptStrategy (s : AdaptiveMemoryAllocator) :
    Except AllocatorError AdaptiveMemoryAllocator :=
  if !s.adaptiveMode then .ok s
  else
    let metrics := getPerformanceMetrics s.arena s.profiler
    let prediction := s.profiler.predictNextAllocation
    let s1 :=
      if s.params.fragmentationThreshold < metrics.fragmentationRatio then
        { s with arena := s.arena.setAllocationStrategy prediction.recommendedStrategy }
      else s
    match s1.optimizePools with
    | .error e => .error e
    | .ok s2 =>
      let s3 := s2.adjustParameters
      .ok { s3 with params := { s3.params with operationsSinceLastAdaptation := 0 } }

/-- AdaptiveMemoryAllocator::shouldCreatePool. -/
def AdaptiveMemoryAllocator.shouldCreatePool (s : AdaptiveMemoryAllocator)
    (size : Nat) : Bool :=
  s.profiler.shouldCreatePoolForSize size s.params.poolCreationThreshold

/-- The arena fall-back path of AdaptiveMemoryAllocator::allocate: regular
allocation, profiler record, adaptation counter, possible adaptStrategy run,
and finally RECORD_ALLOCATION (the leak-tracker record, the macro's
`__FILE__, __LINE__` being AdaptiveMemoryAllocator.cpp line 60).  The
start/end duration computed by the source is never used and is omitted. -/
def arenaPathAllocate (s : AdaptiveMemoryAllocator) (now size : Nat) :
    Except AllocatorError (Nat × AdaptiveMemoryAllocator) :=
  match s.arena.allocate size with
  | .error e => .error e
  | .ok (address, arena') =>
    let s1 := { s with arena := arena', profiler := s.profiler.recordAllocation now size address 0 }
    let s2 := { s1 with params := { s1.params with operationsSinceLastAdaptation := s1.params.operationsSinceLastAdaptation + 1 } }
    match (if s2.params.adaptationInterval ≤ s2.params.operationsSinceLastAdaptation then s2.adaptStrategy else .ok s2) with
    | .error e => .error e
    | .ok s3 =>
      .ok (address, { s3 with leakDetector := s3.leakDetector.recordAllocation now address size "AdaptiveMemoryAllocator.cpp" 60 })

/-- AdaptiveMemoryAllocator::allocate.  In adaptive mode the pool manager is
tried first; on a pool hit the profiler records the allocation and the call
RETURNS IMMEDIATELY — the leak tracker is NOT told (RECORD_ALLOCATION only
runs on the arena fall-back path).  A zero-size request is only rejected by
MemoryAllocator::allocate on the fall-back path; `allocateFromPool(0)` can
succeed because every pool satisfies `blockSize >= 0`. -/
def AdaptiveMemoryAllocator.allocate (s : AdaptiveMemoryAllocator)
    (now size : Nat) : Except AllocatorError (Nat × AdaptiveMemoryAllocator) :=
  if s.adaptiveMode then
    let z := allocateFromPool s.memoryPools size
    if z.1 ≠ 0 then
      .ok (z.1, { s with memoryPools := z.2, profiler := s.profiler.recordAllocation now size z.1 0 })
    else
      if s.shouldCreatePool size then
        match s.createMemoryPool size 10 with
        | .error e => .error e
        | .ok s1 =>
          let z2 := allocateFromPool s1.memoryPools size
          if z2.1 ≠ 0 then
            .ok (z2.1, { s1 with memoryPools := z2.2, profiler := s1.profiler.recordAllocation now size z2.1 0 })
          else arenaPathAllocate s1 now size
      else arenaPathAllocate s now size
  else arenaPathAllocate s now size

/-- `pool.usedBlocks--` in size_t arithmetic: decrement with unsigned wrap
modulo 2^64. -/
def decWrap64 (n : Nat) : Nat := (((n : Int) - 1) % (2 ^ 64 : Int)).toNat

/-- The pool loop of AdaptiveMemoryAllocator::deallocate.  For each pool it
reads `poolStart = pool.freeBlocks.front()` — undefined behavior when the
free vector is empty (outer `none`) — and computes the pool's region as
`[poolStart, poolStart + totalBlocks * blockSize)`; the carve base itself is
not stored anywhere.  On a hit the slot is pushed to the back of the free
vector, usedBlocks is decremented (with unsigned wrap), and the profiler
records the deallocation.  Inner `none` means no pool claimed the address. -/
def poolDeallocateLoop (prof : MemoryProfiler) (now addr : Nat) :
    List MemoryPool → Option (Option (List MemoryPool × MemoryProfiler))
  | [] => some none
  | pool :: rest =>
    match pool.freeBlocks.head? with
    | none => none
    | some poolStart =>
      let poolEnd := poolStart + pool.totalBlocks * pool.blockSize
      if poolStart ≤ addr ∧ addr < poolEnd then
        some (some ({ pool with freeBlocks := pool.freeBlocks ++ [addr], usedBlocks := decWrap64 pool.usedBlocks } :: rest, prof.recordDeallocation now addr))
      else
        match poolDeallocateLoop prof now addr rest with
        | none => none
        | some none => some none
        | some (some z) => some (some (pool :: z.1, z.2))

/-- AdaptiveMemoryAllocator::deallocate.  RECORD_DEALLOCATION (the leak
tracker) runs FIRST, unconditionally; then the pool loop; otherwise the
arena deallocate (whose InvalidAddressException propagates), the profiler
record and the utilisation marking.  `none` = the execution reached the
undefined `front()` read on an exhausted pool. -/
def AdaptiveMemoryAllocator.deallocate (s : AdaptiveMemoryAllocator)
    (now addr : Nat) : Option (Except AllocatorError AdaptiveMemoryAllocator) :=
  let s0 := { s with leakDetector := s.leakDetector.recordDeallocation addr }
  match poolDeallocateLoop s0.profiler now addr s0.memoryPools with
  | none => none
  | some (some z) => some (.ok { s0 with memoryPools := z.1, profiler := z.2 })
  | some none =>
    match s0.arena.deallocate addr with
    | .error e => some (.error e)
    | .ok arena' =>
      let s1 := { s0 with arena := arena', profiler := s0.profiler.recordDeallocation now addr }
      some (.ok s1.updatePoolUtilization)

/-- A ℚ-free projection of the controller state (everything except the
rational fragmentation threshold, which kernel reduction cannot evaluate):
the arena, the pools, the profiler, the leak detector, and the adaptation
counter.  Used to state concrete executions decidably. -/
def AdaptiveMemoryAllocator.view (s : AdaptiveMemoryAllocator) :
    MemoryAllocator × List MemoryPool × MemoryProfiler × MemoryLeakDetector × Nat :=
  (s.arena, s.memoryPools, s.profiler, s.leakDetector,
    s.params.operationsSinceLastAdaptation)

/-!
### Concrete controller executions for claims C5, C6 and C8

All runs start from `mkAdaptiveMemoryAllocator 1024` and use the public
surface only (allocate, deallocate, and the public createMemoryPool), with
the injected clock supplying 1, 2, 3, ... as the successive now-values.
-/

/-- Controller state after `allocate(64)` on a fresh 1024-byte controller:
the request goes to the arena (no pools yet), the profiler and leak tracker
both record it, and the adaptation counter becomes 1. -/
def c68s1 : AdaptiveMemoryAllocator :=
  { arena := ⟨[⟨0, 64, false⟩, ⟨64, 960, true⟩], 1024, .FIRST_FIT⟩
    profiler := ⟨[⟨64, 0, 1, 0, true, 0⟩], [], [(64, 1)], []⟩
    adaptiveMode := true
    memoryPools := []
    params := ⟨3 / 10, 100, 1000, 1⟩
    leakDetector := ⟨[(0, ⟨64, 1, "Call stack capture not implemented\n", 60, "AdaptiveMemoryAllocator.cpp"⟩)], [(0, ⟨64, 1, "Call stack capture not implemented\n", 60, "AdaptiveMemoryAllocator.cpp"⟩)]⟩ }

/-- State after the public `createMemoryPool(64, 2)`: a 128-byte region is
carved from the arena at address 64 and partitioned into the two slots 64
and 128. -/
def c68s2 : AdaptiveMemoryAllocator :=
  { c68s1 with
    arena := ⟨[⟨0, 64, false⟩, ⟨64, 128, false⟩, ⟨192, 832, true⟩], 1024, .FIRST_FIT⟩
    memoryPools := [⟨64, [64, 128], 2, 0⟩] }

/-- Claim C6 is violated by the code: an adaptive-mode allocate satisfied
from a pool returns immediately after recording the allocation in the
PROFILER ONLY.  In the reachable state c68s2, allocate(64) is served from
the pool at address 128; the profiler history grows to 2 records but the
leak detector is exactly the one from before the call, and address 128 is
not in its active set (so the allocation is never tracked as outstanding,
even though a later deallocate(128) would unconditionally call
RECORD_DEALLOCATION for it). -/
theorem spec_c6_pool_hit_skips_leak_tracker :
    ((mkAdaptiveMemoryAllocator 1024).allocate 1 64).map
        (fun z => (z.1, z.2.view)) = .ok (0, c68s1.view) ∧
    (c68s1.createMemoryPool 64 2).map AdaptiveMemoryAllocator.view
      = .ok c68s2.view ∧
    (c68s2.allocate 2 64).map
        (fun z => (z.1, z.2.leakDetector, z.2.profiler.allocationHistory.length,
          z.2.memoryPools))
      = .ok (128, c68s2.leakDetector, 2, [⟨64, [64], 2, 1⟩]) ∧
    (c68s2.leakDetector.activeAllocations.any (fun kv => kv.1 == 128)) = false := by
  refine ⟨?_, ?_, ?_, ?_⟩ <;> decide

/-- Claim C8 is violated by the code: in the reachable state c68s2 (adaptive
mode on, one pool with free slots), the public allocate(0) does NOT fail
with the zero-size error — `allocateFromPool(0)` accepts the first pool
(blockSize 64 ≥ 0, free slots available) and hands out slot 128, consuming
a 64-byte slot and recording a size-0 allocation in the profiler.  The
zero-size guard lives only in MemoryAllocator::allocate, which the pool
path never reaches. -/
theorem spec_c8_zero_size_served_from_pool :
    ((mkAdaptiveMemoryAllocator 1024).allocate 1 64).map
        (fun z => (z.1, z.2.view)) = .ok (0, c68s1.view) ∧
    (c68s1.createMemoryPool 64 2).map AdaptiveMemoryAllocator.view
      = .ok c68s2.view ∧
    (c68s2.allocate 3 0).map
        (fun z => (z.1, z.2.memoryPools, z.2.profiler.allocationHistory.length))
      = .ok (128, [⟨64, [64], 2, 1⟩], 2) := by
  refine ⟨?_, ?_, ?_⟩ <;> decide

/-- State after the public `createMemoryPool(16, 2)` from c68s1: a 32-byte
region carved at arena address 64, slots 64 and 80. -/
def c5s2 : AdaptiveMemoryAllocator :=
  { c68s1 with
    arena := ⟨[⟨0, 64, false⟩, ⟨64, 32, false⟩, ⟨96, 928, true⟩], 1024, .FIRST_FIT⟩
    memoryPools := [⟨16, [64, 80], 2, 0⟩] }

/-- State after allocate(16) served from the pool (slot 80, LIFO from the
back of the free vector). -/
def c5s3 : AdaptiveMemoryAllocator :=
  { c5s2 with
    memoryPools := [⟨16, [64], 2, 1⟩]
    profiler := ⟨[⟨64, 0, 1, 0, true, 0⟩, ⟨16, 80, 2, 0, true, 0⟩], [],
      [(16, 1), (64, 1)], []⟩ }

/-- State after a second allocate(16) (slot 64): the pool is now fully
allocated and its free vector is empty. -/
def c5s4 : AdaptiveMemoryAllocator :=
  { c5s3 with
    memoryPools := [⟨16, [], 2, 2⟩]
    profiler := ⟨[⟨64, 0, 1, 0, true, 0⟩, ⟨16, 80, 2, 0, true, 0⟩,
      ⟨16, 64, 3, 0, true, 0⟩], [], [(16, 2), (64, 1)], []⟩ }

/-- Modelled from the spec: the pool-region membership test of
try_deallocate — the address falls within
`[base_address, base_address + total_slots * block_size)`, where
base_address is the arena address at which the pool was carved. -/
def poolRegionContains (base totalSlots blockSize addr : Nat) : Bool :=
  base ≤ addr && addr < base + totalSlots * blockSize

/-- Claim C5 is violated by the code: the deallocate routing does not use
the pool's carve base (which the MemoryPool struct does not even store) but
`pool.freeBlocks.front()`, the first element of the mutable free-slot
vector.  In the reachable state c5s4 the pool carved at base 64 (2 slots of
16 bytes, region [64, 96)) is fully allocated, so its free vector is empty;
deallocate(64) — an address inside the pool's region, which the spec says
must be routed back to the pool — instead reads `front()` of an empty
vector: undefined behavior (the model's `none`). -/
theorem spec_c5_pool_routing_reads_front_of_empty :
    ((mkAdaptiveMemoryAllocator 1024).allocate 1 64).map
        (fun z => (z.1, z.2.view)) = .ok (0, c68s1.view) ∧
    (c68s1.createMemoryPool 16 2).map AdaptiveMemoryAllocator.view
      = .ok c5s2.view ∧
    (c5s2.allocate 2 16).map (fun z => (z.1, z.2.view)) = .ok (80, c5s3.view) ∧
    (c5s3.allocate 3 16).map (fun z => (z.1, z.2.view)) = .ok (64, c5s4.view) ∧
    poolRegionContains 64 2 16 64 = true ∧
    c5s4.deallocate 4 64 = none := by
  refine ⟨?_, ?_, ?_, ?_, ?_, ?_⟩ <;> decide

/-!
### Claim C9: the fragmentation-threshold bound
-/

/-- Counterexample to C9 as stated: from fragmentation_threshold = 1.0
(inside the claimed interval (0, 1]) and a metrics reading with
hit_rate = 0.5 < 0.8, adjustParameters multiplies by 1.1 with no cap and the
threshold becomes 1.1 > 1.0. -/
theorem spec_c9_counterexample :
    ((0 : ℚ) < 1 ∧ (1 : ℚ) ≤ 1) ∧
    1 < (adjustParametersCore ⟨1, 100, 1000, 0⟩
        ⟨0, 0, 1 / 2, 0, []⟩).fragmentationThreshold := by
  norm_num [adjustParametersCore]

/-- Claim C9, corrected — adjustParameters multiplies the fragmentation
threshold by 1.1 (hit_rate < 0.8) or 0.9 (hit_rate > 0.95) with NO cap at
1.0.  The bound ≤ 1.0 is therefore preserved from every starting value in
(0, 10/11], but not from all of (0, 1]: any start in (10/11, 1] with
hit_rate < 0.8 exceeds 1.0 (see the counterexample). -/
theorem spec_c9_amended_threshold_bound (params : AdaptiveParameters)
    (metrics : PerformanceMetrics)
    (h0 : 0 < params.fragmentationThreshold)
    (h1 : params.fragmentationThreshold ≤ 10 / 11) :
    0 < (adjustParametersCore params metrics).fragmentationThreshold ∧
    (adjustParametersCore params metrics).fragmentationThreshold ≤ 1 := by
  unfold adjustParametersCore
  split_ifs <;> constructor <;> dsimp <;> nlinarith [h0, h1]

/-- Witness for the amended C9 at concrete parameters and metrics. -/
theorem spec_c9_amended_threshold_bound_witness :
    0 < (adjustParametersCore ⟨1 / 2, 100, 1000, 0⟩
        ⟨0, 0, 1 / 2, 0, []⟩).fragmentationThreshold ∧
    (adjustParametersCore ⟨1 / 2, 100, 1000, 0⟩
        ⟨0, 0, 1 / 2, 0, []⟩).fragmentationThreshold ≤ 1 :=
  spec_c9_amended_threshold_bound ⟨1 / 2, 100, 1000, 0⟩ ⟨0, 0, 1 / 2, 0, []⟩
    (by norm_num) (by norm_num)
